import Mathlib

/-
Verification of the HackVoice real-time coordination layer.

This file gives a shallow embedding of:

* the session hub of `src/server/server.ts` (first revision): the global
  maps `socketRoomMap`, `userSockets` and `roomPresence`, and the handlers
  for `join_room`, `leave_room`, `disconnect`, the WebRTC signaling relay
  (`offer` / `answer` / `ice_candidate`), and `chat_message`;
* the client-side peer-mesh initiation rule of
  `src/src/components/ChatRoom.tsx` / `src/unnamed/part_007`
  (`handlePresenceUpdate`);
* the Transcript Promotion Engine of `src/unnamed/part_007`
  (the `recog.onresult` handler together with the `subtitleTimeoutRef`
  debounce callback).

JavaScript objects are embedded as association lists (`String` keys,
assignment overwrites, `delete` removes), JS `Set` as an insertion-ordered
duplicate-free `List String`.  Handlers are pure state transformers that
additionally return the events they emit; the single-threaded run-to-
completion semantics of the event loop is embedded by running one event to
completion per step of a trace.
-/

namespace HackVoice

/-! ## Association-list embedding of JS objects -/

/-- Lookup of `obj[key]` in a JS object embedded as an association list. -/
def lookupA {α : Type} : List (String × α) → String → Option α
  | [], _ => none
  | (k, v) :: tl, k' => if k' = k then some v else lookupA tl k'

/-- Embedding of `delete obj[key]`: removes every binding of the key. -/
def eraseA {α : Type} : List (String × α) → String → List (String × α)
  | [], _ => []
  | (k, v) :: tl, k' => if k = k' then eraseA tl k' else (k, v) :: eraseA tl k'

/-- Embedding of `obj[key] = v`: overwrites any previous binding. -/
def setA {α : Type} (m : List (String × α)) (k : String) (v : α) :
    List (String × α) :=
  (k, v) :: eraseA m k

/-- Embedding of `Set.add` on a JS `Set` held as an insertion-ordered list. -/
def addUser (l : List String) (u : String) : List String :=
  if u ∈ l then l else l ++ [u]

/-- Embedding of `Set.delete` on a JS `Set` held as a list. -/
def delUser (l : List String) (u : String) : List String :=
  l.filter (fun x => decide (x ≠ u))

/-! ## The session hub state (`src/server/server.ts`) -/

/-- The three module-level maps of `server.ts`:
`socketRoomMap[socketId] = (roomCode, userId)`,
`userSockets[userId] = socketId`, and
`roomPresence[roomCode] = Set of userIds`. -/
structure Hub where
  socketRoomMap : List (String × (String × String))
  userSockets : List (String × String)
  roomPresence : List (String × List String)
deriving DecidableEq

/-- The hub state at server start: all three maps empty. -/
def hub0 : Hub := ⟨[], [], []⟩

/-- The user-id set `roomPresence[roomCode]`, as read by
`Array.from(roomPresence[roomCode] || [])` (absent key reads as empty). -/
def presenceOf (h : Hub) (room : String) : List String :=
  (lookupA h.roomPresence room).getD []

/-- The `join_room` handler (server.ts:67-95).  Stores the socket in
`socketRoomMap`, points `userSockets[userId]` at the socket, adds the user
to the room's presence set (creating it if absent) and broadcasts the
resulting `presence_update` array to the room.  The `participant_joined`
notice carries only the display name and is not modelled, as no claim
concerns it. -/
def join_room (h : Hub) (sock room user : String) :
    Hub × List (String × List String) :=
  let srm := setA h.socketRoomMap sock (room, user)
  let us := setA h.userSockets user sock
  let cur := presenceOf h room
  let newSet := addUser cur user
  let rp := setA h.roomPresence room newSet
  (⟨srm, us, rp⟩, [(room, newSet)])

/-- The `leave_room` handler (server.ts:182-201).  Only when the socket has
a `socketRoomMap` entry whose stored room equals the named room does it
delete the user from the room's presence set (via the optional-chained
`?.delete`), broadcast the updated `presence_update`, and delete the
socket's and user's map entries; otherwise only the transport-level
`socket.leave` happens and the hub state is untouched. -/
def leave_room (h : Hub) (sock room : String) :
    Hub × List (String × List String) :=
  match lookupA h.socketRoomMap sock with
  | some (r, user) =>
    if r = room then
      let rp :=
        match lookupA h.roomPresence room with
        | some l => setA h.roomPresence room (delUser l user)
        | none => h.roomPresence
      let emitted := (lookupA rp room).getD []
      (⟨eraseA h.socketRoomMap sock, eraseA h.userSockets user, rp⟩,
        [(room, emitted)])
    else (h, [])
  | none => (h, [])

/-- The `disconnect` handler (server.ts:203-223).  If the socket is
registered, removes the user from the room's presence set and broadcasts
`presence_update` (only when the presence key exists), then deletes the
socket's and user's map entries; a no-op for unregistered sockets. -/
def disconnect_handler (h : Hub) (sock : String) :
    Hub × List (String × List String) :=
  match lookupA h.socketRoomMap sock with
  | some (room, user) =>
    match lookupA h.roomPresence room with
    | some l =>
      let l' := delUser l user
      (⟨eraseA h.socketRoomMap sock, eraseA h.userSockets user,
          setA h.roomPresence room l'⟩, [(room, l')])
    | none =>
      (⟨eraseA h.socketRoomMap sock, eraseA h.userSockets user,
          h.roomPresence⟩, [])
  | none => (h, [])

/-- A hub event: one of the presence-relevant socket events. -/
inductive HEv where
  | join (sock room user : String)
  | leave (sock room : String)
  | disc (sock : String)
deriving DecidableEq

/-- Dispatch of one hub event to its handler. -/
def stepHub (h : Hub) : HEv → Hub × List (String × List String)
  | HEv.join s r u => join_room h s r u
  | HEv.leave s r => leave_room h s r
  | HEv.disc s => disconnect_handler h s

/-- Run a sequence of hub events, one to completion at a time
(the hub is single-threaded), collecting the emitted
`presence_update` broadcasts. -/
def runHub (h : Hub) : List HEv → Hub × List (String × List String)
  | [] => (h, [])
  | e :: tl =>
    let p1 := stepHub h e
    let p2 := runHub p1.1 tl
    (p2.1, p1.2 ++ p2.2)

/-! ## The signaling relay (server.ts:147-180) -/

/-- The shared shape of the `offer`, `answer` and `ice_candidate`
handlers: resolve `userSockets[targetUserId]`; if found, emit the same
event kind to exactly that socket with `fromUserId` and the payload
passed through untouched; if not, only a console warning happens and the
output is empty (nothing is sent to anyone, in particular not to the
sender).  The payload type is a type parameter: the relay cannot inspect
it. -/
def relayMsg {α : Type} (userSockets : List (String × String))
    (kind fromUserId targetUserId : String) (payload : α) :
    List (String × String × String × α) :=
  match lookupA userSockets targetUserId with
  | some sid => [(sid, kind, fromUserId, payload)]
  | none => []

/-! ## The chat_message handler (server.ts:118-145) -/

/-- A row of the `messages` table as returned by the insert's `.select()`. -/
structure StoredMsg where
  user_id : String
  content : String
  created_at : String
deriving DecidableEq

/-- The `chat_message` handler (server.ts:118-145), parameterised by the
outcome of the external persistence call (`supabase...insert(...).select()`).
On a persistence error (or thrown exception) the handler returns after
logging and emits nothing; on success with a non-empty row list it emits
one room-wide `chat_message` carrying the stored row's `user_id`,
`content` and `created_at`; an empty row list also emits nothing. -/
def chat_message_handler (roomCode : String)
    (persistResult : Except String (List StoredMsg)) :
    List (String × String × String × String) :=
  match persistResult with
  | Except.error _ => []
  | Except.ok rows =>
    match rows with
    | [] => []
    | r :: _ => [(roomCode, r.user_id, r.content, r.created_at)]

/-! ## Peer-mesh initiation (ChatRoom.tsx:238-264 / part_007:451-469) -/

/-- The set of peers toward which a client originates an `offer` when it
observes a `presence_update`, given its own id, the ids it already holds a
peer connection for, and the received online-id array: every online id
other than itself without an existing connection (the loop
`userIds.forEach(targetId => if (targetId !== userId &&
!peerConnectionsRef.current[targetId]) initiatePeerConnection(targetId))`,
gated on audio being enabled with a live local stream, which is assumed
here). -/
def offerTargets (selfId : String) (connectedPeers : List String)
    (onlineIds : List String) : List String :=
  onlineIds.filter (fun t => decide (t ≠ selfId) && !(connectedPeers.contains t))

/-! ## Transcript Promotion Engine (part_007:703-812) -/

/-- Embedding of JS `String.prototype.trim` (also Lean's `String.trim`),
written over the character list so that it evaluates inside the kernel:
drops leading and trailing whitespace. -/
def trimS (s : String) : String :=
  ⟨((s.data.dropWhile Char.isWhitespace).reverse.dropWhile
      Char.isWhitespace).reverse⟩

/-- The per-speaker state of the Transcript Promotion Engine:
`pending` is `pendingSubtitles.current[userId]`, `subtitle` is
`subtitles[userId]` (the speaker's own entry), and `timerArmed` records
whether the `subtitleTimeoutRef` debounce timeout is pending. -/
structure TPState where
  pending : Option String
  subtitle : Option String
  timerArmed : Bool
deriving DecidableEq

/-- An event observed by the engine: one `recog.onresult` callback carrying
the concatenated interim and final transcripts of that event, or the firing
of the debounce timeout. -/
inductive TEv where
  | result (interim finalT : String)
  | timer
deriving DecidableEq

/-- One run-to-completion step of the engine
(part_007:703-812 and the timeout callback at part_007:735-767).
Returns the new state and the list of chat-message appends issued.

`result`: if the trimmed interim transcript is non-empty, the subtitle and
the pending buffer are replaced by it and the debounce timeout is re-armed
(the ephemeral `subtitle` broadcast it also emits is not a chat append and
is not modelled).  Then, if the trimmed final transcript is non-empty, a
chat-message append of it is issued when its length exceeds 5, and the
pending buffer and subtitle are cleared unconditionally; the debounce
timeout is not touched by the final branch.

`timer`: when armed, reads the pending buffer; if its trimmed text is
truthy and longer than 5 it is appended as a chat message and the buffer
and subtitle are cleared; otherwise nothing is emitted and the buffer and
subtitle are left as they are. -/
def stepTP (st : TPState) : TEv → TPState × List String
  | TEv.result interim finalT =>
    let ti := trimS interim
    let st1 : TPState :=
      if ti ≠ "" then ⟨some ti, some ti, true⟩ else st
    let tf := trimS finalT
    if tf ≠ "" then
      let out := if tf.length > 5 then [tf] else []
      (⟨none, none, st1.timerArmed⟩, out)
    else (st1, [])
  | TEv.timer =>
    if st.timerArmed then
      match st.pending with
      | some t =>
        let ft := trimS t
        if ft ≠ "" ∧ ft.length > 5 then (⟨none, none, false⟩, [ft])
        else (⟨some t, st.subtitle, false⟩, [])
      | none => (⟨none, st.subtitle, false⟩, [])
    else (st, [])

/-- Run a sequence of engine events one to completion at a time (the client
is single-threaded), collecting all chat-message appends. -/
def runTP (st : TPState) : List TEv → TPState × List String
  | [] => (st, [])
  | e :: tl =>
    let p1 := stepTP st e
    let p2 := runTP p1.1 tl
    (p2.1, p1.2 ++ p2.2)

/-! ## Guarded traces and the presence invariant -/

/-- A join is fresh when the joining socket has no current `socketRoomMap`
entry and the joining user id is held by no currently-registered session. -/
def freshJoinB (h : Hub) (sock user : String) : Bool :=
  (lookupA h.socketRoomMap sock).isNone &&
    h.socketRoomMap.all (fun p => decide (p.2.2 ≠ user))

/-- A trace is guarded from `h` when every `join` in it is fresh at the
state where it is handled. -/
def guardedB (h : Hub) : List HEv → Bool
  | [] => true
  | e :: tl =>
    (match e with
     | HEv.join s _ u => freshJoinB h s u
     | _ => true) && guardedB (stepHub h e).1 tl

/-- The presence invariant: every room's presence set is exactly the set of
users with a registered session for that room, each presence set is
duplicate-free, and no user id is held by two registered sessions. -/
def Inv (h : Hub) : Prop :=
  (∀ room u, u ∈ presenceOf h room ↔
      ∃ s, lookupA h.socketRoomMap s = some (room, u)) ∧
  (∀ room, (presenceOf h room).Nodup) ∧
  (∀ s1 s2 r1 r2 u, lookupA h.socketRoomMap s1 = some (r1, u) →
      lookupA h.socketRoomMap s2 = some (r2, u) → s1 = s2 ∧ r1 = r2)

/-! ## Concrete inputs used by counterexamples and witnesses -/

/-- Reconnect trace: user `u` joins room `R` on socket `s1`, rejoins on a
new socket `s2`, then the stale socket `s1` disconnects. -/
def trReconnect : List HEv :=
  [HEv.join "s1" "R" "u", HEv.join "s2" "R" "u", HEv.disc "s1"]

/-- The first two events of the reconnect trace (state just after the
re-join). -/
def trRejoin : List HEv := [HEv.join "s1" "R" "u", HEv.join "s2" "R" "u"]

/-- Same-socket room-switch trace: socket `s1` joins room `R1` as `u`,
then joins room `R2` without leaving `R1`. -/
def trSwitch : List HEv := [HEv.join "s1" "R1" "u", HEv.join "s1" "R2" "u"]

/-- A guarded example trace: one fresh join followed by a matching leave. -/
def trJoinLeave : List HEv := [HEv.join "s1" "R" "u", HEv.leave "s1" "R"]

/-- Engine state holding a below-threshold pending buffer with the
debounce timeout armed. -/
def tpShort : TPState := ⟨some "hi", some "hi", true⟩

/-- Engine state holding an above-threshold pending buffer with the
debounce timeout armed. -/
def tpLong : TPState := ⟨some "hello there", some "hello there", true⟩

/-- Engine state with nothing buffered and the timeout armed. -/
def tpEmpty : TPState := ⟨none, none, true⟩

/-! ## Helper lemmas about the association-list and set embeddings -/

theorem lookupA_eraseA {α : Type} (m : List (String × α)) (k k' : String) :
    lookupA (eraseA m k) k' = if k' = k then none else lookupA m k' := by
  induction m with
  | nil => simp [eraseA, lookupA]
  | cons p tl ih =>
    obtain ⟨pk, pv⟩ := p
    by_cases hpk : pk = k
    · subst hpk
      show lookupA (if pk = pk then eraseA tl pk else _) k' = _
      rw [if_pos rfl, ih]
      by_cases hk' : k' = pk
      · simp [hk']
      · simp [lookupA, hk']
    · show lookupA (if pk = k then _ else (pk, pv) :: eraseA tl k) k' = _
      rw [if_neg hpk]
      show (if k' = pk then some pv else lookupA (eraseA tl k) k') = _
      by_cases hk' : k' = pk
      · rw [if_pos hk', if_neg (by rw [hk']; exact hpk), lookupA,
          if_pos hk']
      · rw [if_neg hk', ih, lookupA]
        by_cases hkk : k' = k
        · simp [hkk]
        · simp [hkk, hk']

theorem lookupA_setA {α : Type} (m : List (String × α)) (k k' : String)
    (v : α) :
    lookupA (setA m k v) k' = if k' = k then some v else lookupA m k' := by
  show (if k' = k then some v else lookupA (eraseA m k) k') = _
  by_cases hk : k' = k
  · simp [hk]
  · rw [if_neg hk, if_neg hk, lookupA_eraseA, if_neg hk]

theorem lookupA_mem {α : Type} {m : List (String × α)} {k : String} {v : α}
    (h : lookupA m k = some v) : (k, v) ∈ m := by
  induction m with
  | nil => simp [lookupA] at h
  | cons p tl ih =>
    obtain ⟨pk, pv⟩ := p
    by_cases hk : k = pk
    · subst hk
      rw [lookupA, if_pos rfl] at h
      cases h
      exact List.mem_cons_self _ _
    · rw [lookupA, if_neg hk] at h
      exact List.mem_cons_of_mem _ (ih h)

theorem mem_addUser {l : List String} {u v : String} :
    v ∈ addUser l u ↔ v ∈ l ∨ v = u := by
  unfold addUser
  by_cases h : u ∈ l
  · rw [if_pos h]
    constructor
    · exact Or.inl
    · rintro (hv | rfl)
      · exact hv
      · exact h
  · rw [if_neg h]
    simp

theorem nodup_addUser {l : List String} {u : String} (h : l.Nodup) :
    (addUser l u).Nodup := by
  unfold addUser
  by_cases hm : u ∈ l
  · rwa [if_pos hm]
  · rw [if_neg hm]
    simp [List.nodup_append, h, hm]

theorem mem_delUser {l : List String} {u v : String} :
    v ∈ delUser l u ↔ v ∈ l ∧ v ≠ u := by
  simp [delUser, List.mem_filter]

theorem nodup_delUser {l : List String} {u : String} (h : l.Nodup) :
    (delUser l u).Nodup :=
  h.filter _

theorem freshJoin_spec {h : Hub} {sock user : String}
    (hf : freshJoinB h sock user = true) :
    lookupA h.socketRoomMap sock = none ∧
      ∀ s r, lookupA h.socketRoomMap s ≠ some (r, user) := by
  unfold freshJoinB at hf
  rw [Bool.and_eq_true] at hf
  obtain ⟨h1, h2⟩ := hf
  refine ⟨Option.isNone_iff_eq_none.mp h1, ?_⟩
  intro s r hs
  have hmem := lookupA_mem hs
  rw [List.all_eq_true] at h2
  have h3 := h2 _ hmem
  simp at h3

/-! ## Handler equation lemmas -/

theorem join_room_def (h : Hub) (sock room user : String) :
    join_room h sock room user =
      (⟨setA h.socketRoomMap sock (room, user),
        setA h.userSockets user sock,
        setA h.roomPresence room (addUser (presenceOf h room) user)⟩,
       [(room, addUser (presenceOf h room) user)]) := rfl

theorem leave_room_none {h : Hub} {sock : String} (room : String)
    (hl : lookupA h.socketRoomMap sock = none) :
    leave_room h sock room = (h, []) := by
  simp [leave_room, hl]

theorem leave_room_mismatch {h : Hub} {sock room r user : String}
    (hl : lookupA h.socketRoomMap sock = some (r, user)) (hr : r ≠ room) :
    leave_room h sock room = (h, []) := by
  simp [leave_room, hl, hr]

theorem leave_room_match {h : Hub} {sock room user : String}
    {l : List String}
    (hl : lookupA h.socketRoomMap sock = some (room, user))
    (hp : lookupA h.roomPresence room = some l) :
    leave_room h sock room =
      (⟨eraseA h.socketRoomMap sock, eraseA h.userSockets user,
        setA h.roomPresence room (delUser l user)⟩,
       [(room, delUser l user)]) := by
  simp [leave_room, hl, hp, lookupA_setA]

theorem disconnect_match {h : Hub} {sock room user : String}
    {l : List String}
    (hl : lookupA h.socketRoomMap sock = some (room, user))
    (hp : lookupA h.roomPresence room = some l) :
    disconnect_handler h sock =
      (⟨eraseA h.socketRoomMap sock, eraseA h.userSockets user,
        setA h.roomPresence room (delUser l user)⟩,
       [(room, delUser l user)]) := by
  simp [disconnect_handler, hl, hp]

theorem disconnect_none {h : Hub} {sock : String}
    (hl : lookupA h.socketRoomMap sock = none) :
    disconnect_handler h sock = (h, []) := by
  simp [disconnect_handler, hl]

/-! ## Preservation of the presence invariant -/

theorem inv_hub0 : Inv hub0 := by
  refine ⟨?_, ?_, ?_⟩
  · intro room u
    simp [hub0, presenceOf, lookupA]
  · intro room
    simp [hub0, presenceOf, lookupA]
  · intro s1 s2 r1 r2 u h1 h2
    simp [hub0, lookupA] at h1

theorem inv_join {h : Hub} {sock room user : String} (hInv : Inv h)
    (hfresh : freshJoinB h sock user = true) :
    Inv (join_room h sock room user).1 := by
  obtain ⟨ha, hb, hc⟩ := hInv
  obtain ⟨hnone, hno⟩ := freshJoin_spec hfresh
  rw [join_room_def]
  refine ⟨?_, ?_, ?_⟩
  · intro room' u'
    show u' ∈ (lookupA (setA h.roomPresence room
        (addUser (presenceOf h room) user)) room').getD [] ↔ _
    rw [lookupA_setA]
    by_cases hr : room' = room
    · subst hr
      rw [if_pos rfl]
      show u' ∈ addUser (presenceOf h room') user ↔ _
      rw [mem_addUser]
      constructor
      · rintro (hin | rfl)
        · obtain ⟨s, hs⟩ := (ha room' u').mp hin
          refine ⟨s, ?_⟩
          rw [lookupA_setA, if_neg ?_]
          · exact hs
          · rintro rfl
            rw [hnone] at hs
            cases hs
        · exact ⟨sock, by rw [lookupA_setA, if_pos rfl]⟩
      · rintro ⟨s, hs⟩
        rw [lookupA_setA] at hs
        by_cases hss : s = sock
        · rw [if_pos hss] at hs
          simp only [Option.some.injEq, Prod.mk.injEq] at hs
          exact Or.inr hs.2.symm
        · rw [if_neg hss] at hs
          exact Or.inl ((ha room' u').mpr ⟨s, hs⟩)
    · rw [if_neg hr]
      show u' ∈ presenceOf h room' ↔ _
      constructor
      · intro hin
        obtain ⟨s, hs⟩ := (ha room' u').mp hin
        refine ⟨s, ?_⟩
        rw [lookupA_setA, if_neg ?_]
        · exact hs
        · rintro rfl
          rw [hnone] at hs
          cases hs
      · rintro ⟨s, hs⟩
        rw [lookupA_setA] at hs
        by_cases hss : s = sock
        · rw [if_pos hss] at hs
          simp only [Option.some.injEq, Prod.mk.injEq] at hs
          exact absurd hs.1 (fun hh => hr hh.symm)
        · rw [if_neg hss] at hs
          exact (ha room' u').mpr ⟨s, hs⟩
  · intro room'
    show ((lookupA (setA h.roomPresence room
        (addUser (presenceOf h room) user)) room').getD []).Nodup
    rw [lookupA_setA]
    by_cases hr : room' = room
    · rw [if_pos hr]
      exact nodup_addUser (hb room)
    · rw [if_neg hr]
      exact hb room'
  · intro s1 s2 r1 r2 u h1 h2
    show s1 = s2 ∧ r1 = r2
    rw [lookupA_setA] at h1 h2
    by_cases hs1 : s1 = sock <;> by_cases hs2 : s2 = sock
    · rw [if_pos hs1] at h1
      rw [if_pos hs2] at h2
      simp only [Option.some.injEq, Prod.mk.injEq] at h1 h2
      exact ⟨hs1.trans hs2.symm, h1.1.symm.trans h2.1⟩
    · rw [if_pos hs1] at h1
      rw [if_neg hs2] at h2
      simp only [Option.some.injEq, Prod.mk.injEq] at h1
      exact absurd h2 (h1.2 ▸ hno s2 r2)
    · rw [if_neg hs1] at h1
      rw [if_pos hs2] at h2
      simp only [Option.some.injEq, Prod.mk.injEq] at h2
      exact absurd h1 (h2.2 ▸ hno s1 r1)
    · rw [if_neg hs1] at h1
      rw [if_neg hs2] at h2
      exact hc s1 s2 r1 r2 u h1 h2

theorem inv_remove {h : Hub} {sock room user : String} {l : List String}
    (hInv : Inv h) (hl : lookupA h.socketRoomMap sock = some (room, user))
    (hp : lookupA h.roomPresence room = some l) :
    Inv ⟨eraseA h.socketRoomMap sock, eraseA h.userSockets user,
      setA h.roomPresence room (delUser l user)⟩ := by
  obtain ⟨ha, hb, hc⟩ := hInv
  have hcur : presenceOf h room = l := by rw [presenceOf, hp]; rfl
  refine ⟨?_, ?_, ?_⟩
  · intro room' u'
    show u' ∈ (lookupA (setA h.roomPresence room (delUser l user))
        room').getD [] ↔ _
    rw [lookupA_setA]
    by_cases hr : room' = room
    · subst hr
      rw [if_pos rfl]
      show u' ∈ delUser l user ↔ _
      rw [mem_delUser]
      constructor
      · rintro ⟨hin, hne⟩
        rw [← hcur] at hin
        obtain ⟨s, hs⟩ := (ha room' u').mp hin
        refine ⟨s, ?_⟩
        rw [lookupA_eraseA, if_neg ?_]
        · exact hs
        · rintro rfl
          rw [hl] at hs
          simp only [Option.some.injEq, Prod.mk.injEq] at hs
          exact hne hs.2.symm
      · rintro ⟨s, hs⟩
        rw [lookupA_eraseA] at hs
        by_cases hss : s = sock
        · rw [if_pos hss] at hs
          cases hs
        · rw [if_neg hss] at hs
          refine ⟨hcur ▸ (ha room' u').mpr ⟨s, hs⟩, ?_⟩
          rintro rfl
          exact hss (hc s sock room' room' u' hs hl).1
    · rw [if_neg hr]
      show u' ∈ presenceOf h room' ↔ _
      constructor
      · intro hin
        obtain ⟨s, hs⟩ := (ha room' u').mp hin
        refine ⟨s, ?_⟩
        rw [lookupA_eraseA, if_neg ?_]
        · exact hs
        · rintro rfl
          rw [hl] at hs
          simp only [Option.some.injEq, Prod.mk.injEq] at hs
          exact hr hs.1.symm
      · rintro ⟨s, hs⟩
        rw [lookupA_eraseA] at hs
        by_cases hss : s = sock
        · rw [if_pos hss] at hs
          cases hs
        · rw [if_neg hss] at hs
          exact (ha room' u').mpr ⟨s, hs⟩
  · intro room'
    show ((lookupA (setA h.roomPresence room (delUser l user))
        room').getD []).Nodup
    rw [lookupA_setA]
    by_cases hr : room' = room
    · rw [if_pos hr]
      exact nodup_delUser (hcur ▸ hb room)
    · rw [if_neg hr]
      exact hb room'
  · intro s1 s2 r1 r2 u h1 h2
    show s1 = s2 ∧ r1 = r2
    rw [lookupA_eraseA] at h1 h2
    by_cases hs1 : s1 = sock
    · rw [if_pos hs1] at h1
      cases h1
    · rw [if_neg hs1] at h1
      by_cases hs2 : s2 = sock
      · rw [if_pos hs2] at h2
        cases h2
      · rw [if_neg hs2] at h2
        exact hc s1 s2 r1 r2 u h1 h2

theorem inv_leave {h : Hub} {sock room : String} (hInv : Inv h) :
    Inv (leave_room h sock room).1 := by
  cases hl : lookupA h.socketRoomMap sock with
  | none => rw [leave_room_none room hl]; exact hInv
  | some p =>
    obtain ⟨r, user⟩ := p
    by_cases hr : r = room
    · subst hr
      have huser : user ∈ presenceOf h r := (hInv.1 r user).mpr ⟨sock, hl⟩
      cases hp : lookupA h.roomPresence r with
      | none =>
        exfalso
        rw [presenceOf, hp] at huser
        simp at huser
      | some l =>
        rw [leave_room_match hl hp]
        exact inv_remove hInv hl hp
    · rw [leave_room_mismatch hl hr]
      exact hInv

theorem inv_disc {h : Hub} {sock : String} (hInv : Inv h) :
    Inv (disconnect_handler h sock).1 := by
  cases hl : lookupA h.socketRoomMap sock with
  | none => rw [disconnect_none hl]; exact hInv
  | some p =>
    obtain ⟨room, user⟩ := p
    have huser : user ∈ presenceOf h room := (hInv.1 room user).mpr ⟨sock, hl⟩
    cases hp : lookupA h.roomPresence room with
    | none =>
      exfalso
      rw [presenceOf, hp] at huser
      simp at huser
    | some l =>
      rw [disconnect_match hl hp]
      exact inv_remove hInv hl hp

theorem inv_run {h : Hub} {tr : List HEv} (hInv : Inv h)
    (hg : guardedB h tr = true) : Inv (runHub h tr).1 := by
  induction tr generalizing h with
  | nil => exact hInv
  | cons e tl ih =>
    cases e with
    | join s r u =>
      have hg' : (freshJoinB h s u &&
          guardedB (join_room h s r u).1 tl) = true := hg
      rw [Bool.and_eq_true] at hg'
      show Inv (runHub (join_room h s r u).1 tl).1
      exact ih (inv_join hInv hg'.1) hg'.2
    | leave s r =>
      show Inv (runHub (leave_room h s r).1 tl).1
      exact ih (inv_leave hInv) hg
    | disc s =>
      show Inv (runHub (disconnect_handler h s).1 tl).1
      exact ih (inv_disc hInv) hg

/-! ## Transcript-engine helper lemmas -/

theorem runTP_cons (st : TPState) (e : TEv) (tl : List TEv) :
    runTP st (e :: tl) =
      ((runTP (stepTP st e).1 tl).1,
        (stepTP st e).2 ++ (runTP (stepTP st e).1 tl).2) := rfl

theorem timers_frozen {st : TPState} {tr : List TEv}
    (harm : st.timerArmed = false) (h : ∀ e ∈ tr, e = TEv.timer) :
    runTP st tr = (st, []) := by
  induction tr with
  | nil => rfl
  | cons e tl ih =>
    have he : e = TEv.timer := h e (List.mem_cons_self e tl)
    subst he
    have hstep : stepTP st TEv.timer = (st, []) := by simp [stepTP, harm]
    have hrest := ih (fun e hm => h e (List.mem_cons_of_mem _ hm))
    rw [runTP_cons, hstep]
    simp [hrest]

theorem promote_clears_aux :
    ∀ (st : TPState) (e : TEv), (stepTP st e).2 ≠ [] →
      (stepTP st e).1.pending = none := by
  intro st e h
  cases e with
  | result i f =>
    by_cases hf : trimS f ≠ ""
    · simp [stepTP, hf]
    · exfalso
      apply h
      simp [stepTP, hf]
  | timer =>
    by_cases harm : st.timerArmed
    · cases hp : st.pending with
      | none =>
        exfalso
        apply h
        simp [stepTP, harm, hp]
      | some t =>
        by_cases hg : trimS t ≠ "" ∧ (trimS t).length > 5
        · simp [stepTP, harm, hp, hg]
        · exfalso
          apply h
          simp [stepTP, harm, hp, hg]
    · have harm' : st.timerArmed = false := by simpa using harm
      exfalso
      apply h
      simp [stepTP, harm']

theorem empty_buffer_timer_aux :
    ∀ st : TPState, st.pending = none → (stepTP st TEv.timer).2 = [] := by
  intro st h
  by_cases harm : st.timerArmed <;> simp [stepTP, harm, h]

theorem promote_once_aux {tr : List TEv} :
    ∀ st : TPState, (∀ e ∈ tr, e = TEv.timer) →
      ((runTP st tr).2).length ≤ 1 := by
  induction tr with
  | nil =>
    intro st h
    simp [runTP]
  | cons e tl ih =>
    intro st h
    have he : e = TEv.timer := h e (List.mem_cons_self e tl)
    subst he
    have htl : ∀ e ∈ tl, e = TEv.timer :=
      fun e hm => h e (List.mem_cons_of_mem _ hm)
    rw [runTP_cons]
    by_cases harm : st.timerArmed
    · cases hp : st.pending with
      | none =>
        have hstep : stepTP st TEv.timer = (⟨none, st.subtitle, false⟩, []) := by
          simp [stepTP, harm, hp]
        rw [hstep]
        simpa using ih _ htl
      | some t =>
        by_cases hg : trimS t ≠ "" ∧ (trimS t).length > 5
        · have hstep : stepTP st TEv.timer = (⟨none, none, false⟩, [trimS t]) := by
            simp [stepTP, harm, hp, hg]
          rw [hstep]
          have hfrz : runTP (⟨none, none, false⟩ : TPState) tl =
              (⟨none, none, false⟩, []) := timers_frozen rfl htl
          simp [hfrz]
        · have hstep : stepTP st TEv.timer = (⟨some t, st.subtitle, false⟩, []) := by
            simp [stepTP, harm, hp, hg]
          rw [hstep]
          simpa using ih _ htl
    · have harm' : st.timerArmed = false := by simpa using harm
      have hstep : stepTP st TEv.timer = (st, []) := by simp [stepTP, harm']
      rw [hstep]
      simpa using ih _ htl

theorem short_buffer_run_aux {tr : List TEv} :
    ∀ (st : TPState) (t : String), st.pending = some t →
      (trimS t).length ≤ 5 → (∀ e ∈ tr, e = TEv.timer) →
      (runTP st tr).2 = [] ∧ (runTP st tr).1.pending = some t := by
  induction tr with
  | nil =>
    intro st t hp _ _
    exact ⟨rfl, hp⟩
  | cons e tl ih =>
    intro st t hp hlen h
    have he : e = TEv.timer := h e (List.mem_cons_self e tl)
    subst he
    have htl : ∀ e ∈ tl, e = TEv.timer :=
      fun e hm => h e (List.mem_cons_of_mem _ hm)
    rw [runTP_cons]
    by_cases harm : st.timerArmed
    · have hg : ¬ (trimS t ≠ "" ∧ (trimS t).length > 5) := by
        rintro ⟨-, hgt⟩
        omega
      have hstep : stepTP st TEv.timer = (⟨some t, st.subtitle, false⟩, []) := by
        simp [stepTP, harm, hp, hg]
      rw [hstep]
      simpa using ih _ t rfl hlen htl
    · have harm' : st.timerArmed = false := by simpa using harm
      have hstep : stepTP st TEv.timer = (st, []) := by simp [stepTP, harm']
      rw [hstep]
      simpa using ih _ t hp hlen htl

/-! ## Claim C1 -/

/-- Claim C1, counterexample.  The claim that after every sequence of
join_room / leave_room / disconnect events the presence set equals the set
of users with a registered socketRoomMap session for the room is false on
the code.  Trace trReconnect (user u joins room R on socket s1, rejoins on
socket s2, then s1 disconnects) ends with the presence set of R empty
while session s2 is still registered for (R, u); trace trSwitch (socket s1
joins R1 as u, then joins R2 without leaving) ends with u still in the
presence set of R1 while no session is registered for (R1, u). -/
theorem presence_diverges_from_registered :
    (¬ (("u" ∈ presenceOf (runHub hub0 trReconnect).1 "R") ↔
        ∃ s, lookupA (runHub hub0 trReconnect).1.socketRoomMap s =
          some ("R", "u"))) ∧
    (¬ (("u" ∈ presenceOf (runHub hub0 trSwitch).1 "R1") ↔
        ∃ s, lookupA (runHub hub0 trSwitch).1.socketRoomMap s =
          some ("R1", "u"))) := by
  constructor
  · intro hiff
    have h2 : "u" ∈ presenceOf (runHub hub0 trReconnect).1 "R" :=
      hiff.mpr ⟨"s2", by decide⟩
    revert h2
    decide
  · intro hiff
    obtain ⟨s, hs⟩ := hiff.mp (by decide)
    have hmem := lookupA_mem hs
    have hsrm : (runHub hub0 trSwitch).1.socketRoomMap =
        [("s1", ("R2", "u"))] := by decide
    rw [hsrm, List.mem_singleton] at hmem
    have hbad : ("R1" : String) = "R2" := congrArg (fun p => p.2.1) hmem
    exact absurd hbad (by decide)

/-- Claim C1, amended: for every sequence of join_room, leave_room and
disconnect events in which each join_room is issued by a socket with no
current socketRoomMap entry and for a user id held by no
currently-registered session, the presence set of every room equals
exactly the set of user ids with a registered session for that room, with
no duplicates.  (The unrestricted claim fails on reconnects and on a
socket switching rooms; see the counterexample.) -/
theorem presence_matches_registered (tr : List HEv)
    (hg : guardedB hub0 tr = true) :
    ∀ room u,
      (u ∈ presenceOf (runHub hub0 tr).1 room ↔
        ∃ s, lookupA (runHub hub0 tr).1.socketRoomMap s = some (room, u)) ∧
      (presenceOf (runHub hub0 tr).1 room).Nodup := by
  have hInv := inv_run inv_hub0 hg
  exact fun room u => ⟨hInv.1 room u, hInv.2.1 room⟩

/-- Witness for C1 at the concrete guarded trace trJoinLeave. -/
theorem presence_matches_registered_witness :
    (("u" ∈ presenceOf (runHub hub0 trJoinLeave).1 "R") ↔
      ∃ s, lookupA (runHub hub0 trJoinLeave).1.socketRoomMap s =
        some ("R", "u")) ∧
    (presenceOf (runHub hub0 trJoinLeave).1 "R").Nodup :=
  presence_matches_registered trJoinLeave (by decide) "R" "u"

/-! ## Claim C2 -/

/-- Claim C2 is violated by the code: when users A and B (audio enabled,
local stream live, no existing peer connections) each observe the presence
array of the other, BOTH originate an offer — the loop in
handlePresenceUpdate has no lexicographic comparison, so the
lexicographically larger id B also initiates toward A, and the pair gets
two negotiations instead of exactly one by the smaller id.  (The spec
itself flags deterministic initiator selection as a mandated fix absent
from the source.) -/
theorem both_sides_originate_offer :
    offerTargets "B" [] ["A", "B"] = ["A"] ∧
    offerTargets "A" [] ["A", "B"] = ["B"] := by decide

/-! ## Claim C3 -/

/-- Claim C3 is violated by the code: after user u rejoins room R on a new
socket s2 (trace trRejoin), the stale socketRoomMap entry for s1 is still
present — it is not replaced — and although the presence size is indeed
unchanged, the subsequent disconnect of the old socket s1 (trace
trReconnect) removes the live presence of u and deletes the signaling
route userSockets[u], even though session s2 is still registered. -/
theorem rejoin_keeps_stale_session :
    lookupA (runHub hub0 trRejoin).1.socketRoomMap "s1" = some ("R", "u") ∧
    lookupA (runHub hub0 trRejoin).1.socketRoomMap "s2" = some ("R", "u") ∧
    presenceOf (runHub hub0 trRejoin).1 "R" = ["u"] ∧
    presenceOf (runHub hub0 trReconnect).1 "R" = [] ∧
    lookupA (runHub hub0 trReconnect).1.socketRoomMap "s2" = some ("R", "u") ∧
    lookupA (runHub hub0 trReconnect).1.userSockets "u" = none := by decide

/-! ## Claim C4 -/

/-- Claim C4: every buffered utterance is promoted to at most one
chat-message append.  Any step of the engine that issues an append leaves
the pending buffer cleared in that same step (the clear is atomic with the
append, since each event runs to completion); a debounce firing with an
empty buffer appends nothing; and along any sequence of timer firings with
no intervening fragment at most one append is issued, so no interleaving
of fragments, finalized results and timer firings can append the same
buffered text twice. -/
theorem buffered_utterance_promoted_at_most_once :
    (∀ (st : TPState) (e : TEv), (stepTP st e).2 ≠ [] →
      (stepTP st e).1.pending = none) ∧
    (∀ st : TPState, st.pending = none → (stepTP st TEv.timer).2 = []) ∧
    (∀ (st : TPState) (tr : List TEv), (∀ e ∈ tr, e = TEv.timer) →
      ((runTP st tr).2).length ≤ 1) :=
  ⟨promote_clears_aux, empty_buffer_timer_aux,
    fun st _ h => promote_once_aux st h⟩

/-- Witness for C4 at concrete engine states. -/
theorem buffered_utterance_promoted_at_most_once_witness :
    (stepTP tpEmpty (TEv.result "" "hello there")).1.pending = none ∧
    (stepTP tpEmpty TEv.timer).2 = [] ∧
    ((runTP tpLong [TEv.timer, TEv.timer]).2).length ≤ 1 :=
  ⟨buffered_utterance_promoted_at_most_once.1 tpEmpty
      (TEv.result "" "hello there") (by decide),
    buffered_utterance_promoted_at_most_once.2.1 tpEmpty rfl,
    buffered_utterance_promoted_at_most_once.2.2 tpLong
      [TEv.timer, TEv.timer] (by decide)⟩

/-! ## Claim C5 -/

/-- Claim C5: for every signaling message (the offer, answer and
ice_candidate handlers all have this shape), if the target user id
resolves in userSockets the hub delivers the event kind, the sender id and
the payload to exactly that socket, with the payload passed through
verbatim (its type is opaque to the relay); if it does not resolve, the
output is empty — the message is dropped with only a console warning and
nothing is sent back to the sender. -/
theorem signaling_relay_verbatim_or_dropped :
    ∀ (α : Type) (us : List (String × String)) (kind f t : String) (p : α),
      (∀ sid, lookupA us t = some sid →
        relayMsg us kind f t p = [(sid, kind, f, p)]) ∧
      (lookupA us t = none → relayMsg us kind f t p = []) := by
  intro α us kind f t p
  constructor
  · intro sid hs
    simp [relayMsg, hs]
  · intro hn
    simp [relayMsg, hn]

/-- Witness for C5 at a concrete map and payload. -/
theorem signaling_relay_verbatim_or_dropped_witness :
    relayMsg [("b", "sockB")] "offer" "a" "b" (37 : Nat) =
      [("sockB", "offer", "a", 37)] ∧
    relayMsg ([] : List (String × String)) "offer" "a" "b" (37 : Nat) = [] :=
  ⟨(signaling_relay_verbatim_or_dropped Nat [("b", "sockB")] "offer" "a" "b"
      37).1 "sockB" (by decide),
    (signaling_relay_verbatim_or_dropped Nat [] "offer" "a" "b" 37).2 rfl⟩

/-! ## Claim C6 -/

/-- Claim C6, counterexample.  A below-threshold buffer is NOT discarded
on timeout: from the state with pending text "hi" and the debounce
timeout armed, the timer firing emits nothing but leaves both the pending
buffer and the subtitle in place — the claim that the buffer is discarded
silently on timeout is false on the code. -/
theorem short_buffer_retained_on_timeout :
    (stepTP tpShort TEv.timer).2 = [] ∧
    (stepTP tpShort TEv.timer).1.pending = some "hi" ∧
    (stepTP tpShort TEv.timer).1.subtitle = some "hi" := by decide

/-- Claim C6, amended: a transcript buffer whose trimmed text is at most
the minimum length threshold (5) is never promoted to a chat message,
regardless of how long the speaker stays silent (any number of timer
firings), and no error is emitted — but on timeout the buffer is retained
unchanged, not discarded; it is only cleared by a later finalized result
or replaced by a new fragment.  A below-threshold finalized result is
likewise never promoted. -/
theorem short_buffer_never_promoted :
    (∀ (st : TPState) (t : String) (tr : List TEv), st.pending = some t →
      (trimS t).length ≤ 5 → (∀ e ∈ tr, e = TEv.timer) →
      (runTP st tr).2 = [] ∧ (runTP st tr).1.pending = some t) ∧
    (∀ (st : TPState) (f : String), (trimS f).length ≤ 5 →
      (stepTP st (TEv.result "" f)).2 = []) := by
  constructor
  · exact fun st t tr hp hlen h => short_buffer_run_aux st t hp hlen h
  · intro st f hlen
    by_cases hf : trimS f ≠ ""
    · have hnot : ¬ (trimS f).length > 5 := by omega
      simp [stepTP, hf, hnot]
    · simp [stepTP, hf]

/-- Witness for C6 at the concrete short-buffer state. -/
theorem short_buffer_never_promoted_witness :
    ((runTP tpShort [TEv.timer, TEv.timer]).2 = [] ∧
      (runTP tpShort [TEv.timer, TEv.timer]).1.pending = some "hi") ∧
    (stepTP tpEmpty (TEv.result "" "hi")).2 = [] :=
  ⟨short_buffer_never_promoted.1 tpShort "hi" [TEv.timer, TEv.timer] rfl
      (by decide) (by decide),
    short_buffer_never_promoted.2 tpEmpty "hi" (by decide)⟩

/-! ## Claim C7 -/

/-- Claim C7: a finalized recognition result is promoted immediately, in
the very step in which it arrives (no timer event is needed), subject to
the same minimum length threshold (greater than 5) as the debounce
promotion, and the pending buffer and the speaker subtitle are cleared as
part of that promotion; a below-threshold final result yields no append. -/
theorem final_result_promotes_immediately :
    ∀ (st : TPState) (i f : String), trimS f ≠ "" →
      ((trimS f).length > 5 →
        (stepTP st (TEv.result i f)).2 = [trimS f] ∧
        (stepTP st (TEv.result i f)).1.pending = none ∧
        (stepTP st (TEv.result i f)).1.subtitle = none) ∧
      ((trimS f).length ≤ 5 → (stepTP st (TEv.result i f)).2 = []) := by
  intro st i f hf
  constructor
  · intro hlen
    simp [stepTP, hf, hlen]
  · intro hlen
    have hnot : ¬ (trimS f).length > 5 := by omega
    simp [stepTP, hf, hnot]

/-- Witness for C7 at a concrete final transcript. -/
theorem final_result_promotes_immediately_witness :
    (stepTP tpLong (TEv.result "" "hello there")).2 = [trimS "hello there"] ∧
    (stepTP tpLong (TEv.result "" "hello there")).1.pending = none ∧
    (stepTP tpLong (TEv.result "" "hello there")).1.subtitle = none :=
  (final_result_promotes_immediately tpLong "" "hello there"
    (by decide)).1 (by decide)

/-! ## Claim C8 -/

/-- Claim C8: the chat_message handler broadcasts only after successful
persistence — on a persistence error (or exception) nothing at all is
emitted, and on success the single room-wide chat_message broadcast
carries the stored row fields: the persisted content and the
server-assigned created_at timestamp.  An insert reported successful but
returning no rows also broadcasts nothing. -/
theorem chat_message_persist_then_broadcast :
    ∀ (room err : String) (r : StoredMsg) (rest : List StoredMsg),
      chat_message_handler room (Except.error err) = [] ∧
      chat_message_handler room (Except.ok (r :: rest)) =
        [(room, r.user_id, r.content, r.created_at)] ∧
      chat_message_handler room (Except.ok []) = [] :=
  fun _ _ _ _ => ⟨rfl, rfl, rfl⟩

/-! ## Claim C9 -/

/-- Claim C9: a leave_room or disconnect from a socket that has no
socketRoomMap entry is an idempotent no-op — the hub state is returned
unchanged, no presence_update is emitted, no error is raised, and
repeating the operation has the same absent effect; likewise a late ICE
candidate whose target resolves to no live session is dropped with no
effect. -/
theorem unregistered_session_cleanup_is_noop :
    ∀ (h : Hub) (sock room : String),
      lookupA h.socketRoomMap sock = none →
      leave_room h sock room = (h, []) ∧
      disconnect_handler h sock = (h, []) ∧
      leave_room (leave_room h sock room).1 sock room = (h, []) ∧
      ∀ (us : List (String × String)) (f t p : String),
        lookupA us t = none → relayMsg us "ice_candidate" f t p = [] := by
  intro h sock room hl
  have h1 : leave_room h sock room = (h, []) := leave_room_none room hl
  refine ⟨h1, disconnect_none hl, ?_, ?_⟩
  · rw [h1]
    exact h1
  · intro us f t p ht
    simp [relayMsg, ht]

/-- Witness for C9 at the empty hub and a ghost socket. -/
theorem unregistered_session_cleanup_is_noop_witness :
    leave_room hub0 "ghost" "R" = (hub0, []) ∧
    disconnect_handler hub0 "ghost" = (hub0, []) ∧
    leave_room (leave_room hub0 "ghost" "R").1 "ghost" "R" = (hub0, []) ∧
    relayMsg [] "ice_candidate" "a" "b" "cand" =
      ([] : List (String × String × String × String)) :=
  have h := unregistered_session_cleanup_is_noop hub0 "ghost" "R" rfl
  ⟨h.1, h.2.1, h.2.2.1, h.2.2.2 [] "a" "b" "cand" rfl⟩

/-! ## Claim C10 -/

/-- Claim C10: a leave_room from a registered socket naming a room other
than the one it is registered in changes no presence state at all — the
handler returns the hub (socketRoomMap, userSockets and every roomPresence
set) exactly as it was and emits no presence_update (only the
transport-level socket.leave happens, which is outside the hub state). -/
theorem leave_room_wrong_room_is_frame :
    ∀ (h : Hub) (sock room r' u : String),
      lookupA h.socketRoomMap sock = some (r', u) → r' ≠ room →
      leave_room h sock room = (h, []) := by
  intro h sock room r' u hl hne
  exact leave_room_mismatch hl hne

/-- Witness for C10: socket s1 is registered in room R and sends
leave_room for room OTHER. -/
theorem leave_room_wrong_room_is_frame_witness :
    leave_room (runHub hub0 [HEv.join "s1" "R" "u"]).1 "s1" "OTHER" =
      ((runHub hub0 [HEv.join "s1" "R" "u"]).1, []) :=
  leave_room_wrong_room_is_frame _ "s1" "OTHER" "R" "u" (by decide)
    (by decide)

end HackVoice
